import Mathlib

/-!
# Email expense tracker — verification of the extraction/aggregation core

Shallow embedding of the Gaurangityagi/Email_expense_tracker repository.

Conventions used throughout:
* Python `float` values are modeled as exact rationals `ℚ`.
* A call `re.findall(pattern, body, flags)` is modeled as an abstract matcher
  function `String → List String` (the list of captured group strings, in order);
  the cascade, dispatch and selection logic around these calls is translated
  directly from the source.
* A Python expression that may raise inside a `try` block is modeled with
  `Option`: `none` is the exception path the source catches.
-/

namespace EmailExpense

/-! ## String machinery modeling the Python primitives used by the repository -/

/-- `startsWithList n h` is true when `n` is an initial segment of `h`. -/
def startsWithList : List Char → List Char → Bool
  | [], _ => true
  | _ :: _, [] => false
  | a :: n, b :: h => a == b && startsWithList n h

/-- Model of Python `needle in haystack` (substring containment) on char lists. -/
def containsSubList (needle : List Char) : List Char → Bool
  | [] => needle.isEmpty
  | c :: rest => startsWithList needle (c :: rest) || containsSubList needle rest

/-- Model of Python `needle in haystack` on strings. -/
def containsSub (needle haystack : String) : Bool :=
  containsSubList needle.toList haystack.toList

/-- Model of Python `str.lower()` (character-wise case folding; the repository only
lowercases ASCII keyword/sender text). -/
def pyLower (s : String) : String := String.mk (s.toList.map Char.toLower)

/-! ## Decimal parsing: Python `float()` on regex-captured amount strings -/

/-- Numeric value of a digit run. -/
def digitsVal (l : List Char) : Nat := l.foldl (fun a c => a * 10 + (c.toNat - 48)) 0

/-- Model of Python `float()` restricted to the shapes the repository's amount regexes
capture: a nonempty digit run, optionally followed by `'.'` and a nonempty digit run.
`none` is the `ValueError` path that the source's `except` branches catch. -/
def parseFloatChars (l : List Char) : Option ℚ :=
  let ip := l.takeWhile (fun c => c != '.')
  match l.dropWhile (fun c => c != '.') with
  | [] =>
    if !ip.isEmpty && ip.all Char.isDigit then some ((digitsVal ip : ℚ)) else none
  | _ :: fp =>
    if !ip.isEmpty && ip.all Char.isDigit && !fp.isEmpty && fp.all Char.isDigit then
      some ((digitsVal ip : ℚ) + (digitsVal fp : ℚ) / (10 : ℚ) ^ fp.length)
    else none

/-- Model of `float(str(x).replace(",", ""))` applied to one regex match. -/
def floatOfMatch (s : String) : Option ℚ :=
  parseFloatChars (s.toList.filter (fun c => c != ','))

/-! ## Generic pattern cascade
(`EmailParser.extract_order_info` of src/email_processing.py and src/Swiggy_data.py) -/

/-- Model of `re.sub(r"[^\d.]", "", s)`: keep only digits and the decimal point. -/
def cleanAmount (s : String) : String :=
  String.mk (s.toList.filter (fun c => c.isDigit || c == '.'))

/-- Model of `max(matches, key=lambda x: float(str(x).replace(",", "")))` given the key
of the current best: Python `max` keeps the first element whose key is maximal, and a
`ValueError` raised by the key function aborts the whole extraction (`none`, caught by
the enclosing `except` which returns `None`). -/
def selectLargestAux (best : String) (bv : ℚ) : List String → Option (String × ℚ)
  | [] => some (best, bv)
  | x :: rest =>
    match floatOfMatch x with
    | none => none
    | some xv => if bv < xv then selectLargestAux x xv rest else selectLargestAux best bv rest

/-- `max` over a whole match list (with its numeric key), `none` on an empty list or a
key failure. -/
def selectLargest : List String → Option (String × ℚ)
  | [] => none
  | m :: rest =>
    match floatOfMatch m with
    | none => none
    | some v => selectLargestAux m v rest

/-- `EmailParser.extract_order_info` of src/email_processing.py (the same loop appears in
src/Swiggy_data.py): iterate the ordered pattern cascade; for the first pattern whose
`re.findall` result is nonempty, select the numerically largest match and return it with
every character but digits and `'.'` stripped; if no pattern matches, `None`. Each
pattern is the abstract matcher `body ↦ re.findall(pattern, body, MULTILINE|IGNORECASE)`. -/
def extract_order_info : List (String → List String) → String → Option String
  | [], _ => none
  | p :: rest, body =>
    let found := p body
    if found.isEmpty then extract_order_info rest body
    else (selectLargest found).map (fun b => cleanAmount b.1)

/-! ## Vendor-dispatching extractor (src/backend/email_processing.py) -/

/-- `EmailParser._match_labeled_amount`: collect `(float(amt.replace(",", "")), label)`
for every match of every pattern in order, skipping unparseable matches; return the
value of the last collected pair (`matches[-1][0]`), or `None` when none collected.
Patterns are (matcher, label) pairs. -/
def match_labeled_amount (patterns : List ((String → List String) × String))
    (body : String) : Option ℚ :=
  let ms := patterns.foldl
    (fun acc pl => acc ++ (pl.1 body).filterMap
      (fun amt => (floatOfMatch amt).map (fun v => (v, pl.2)))) []
  ms.getLast?.map Prod.fst

/-- `EmailParser._extract_amazon_amount`: find all `Total ₹X` matches; `None` when there
are none; otherwise the sum of the parseable matches (unparseable ones are skipped). -/
def extract_amazon_amount (findTotals : String → List String) (body : String) : Option ℚ :=
  let ms := findTotals body
  if ms.isEmpty then none
  else some ((ms.filterMap floatOfMatch).sum)

/-- `EmailParser.extract_order_info` of src/backend/email_processing.py: lowercase the
sender (empty for `None`), dispatch on a contained vendor token, otherwise `None`. -/
def extract_order_info_backend (swiggyPatterns : List ((String → List String) × String))
    (amazonFind : String → List String) (body : String) (sender_email : Option String) :
    Option ℚ :=
  let sender := pyLower (sender_email.getD "")
  if containsSub "swiggy" sender then match_labeled_amount swiggyPatterns body
  else if containsSub "amazon" sender then extract_amazon_amount amazonFind body
  else none

/-! ## Body normalizer (`EmailParser.get_email_body`, src/backend/email_processing.py) -/

/-- One MIME part as the normalizer sees it. `decoded` models
`part.get_payload(decode=True).decode(charset)`; `none` is a raised decode error. -/
structure MimePart where
  contentType : String
  decoded : Option String

/-- A fetched message: headers (via `email_message.get`) plus MIME content. For a
single-part message `singleDecoded` models the decode of its sole payload. -/
structure EmailMsg where
  subject : String
  fromAddr : Option String
  dateHdr : Option String
  multipart : Bool
  parts : List MimePart
  singleDecoded : Option String

/-- Scan for the first `'>'` of a lazy `[^<]+?>` tail: fails on `'<'` or end of input,
returns the remainder after the `'>'`. -/
def lookForGt : List Char → Option (List Char)
  | [] => none
  | c :: rest => if c == '>' then some rest else if c == '<' then none else lookForGt rest

/-- Match the `[^<]+?>` part of the tag regex right after a `'<'`: at least one
non-`'<'` character, lazily up to the first `'>'`. -/
def scanTag : List Char → Option (List Char)
  | [] => none
  | c :: rest => if c == '<' then none else lookForGt rest

theorem lookForGt_length : ∀ l r, lookForGt l = some r → r.length < l.length := by
  intro l
  induction l with
  | nil => intro r h; simp [lookForGt] at h
  | cons c rest ih =>
    intro r h
    simp only [lookForGt] at h
    split at h
    · cases h; simp
    · split at h
      · cases h
      · exact Nat.lt_trans (ih r h) (by simp)

theorem scanTag_length : ∀ l r, scanTag l = some r → r.length < l.length := by
  intro l r h
  match l with
  | [] => simp [scanTag] at h
  | c :: rest =>
    simp only [scanTag] at h
    split at h
    · cases h
    · exact Nat.lt_trans (lookForGt_length rest r h) (by simp)

/-- Model of `re.sub("<[^<]+?>", " ", s)` on the character list: each leftmost,
non-overlapping lazy tag match is replaced by one space. -/
def stripTagsList (l : List Char) : List Char :=
  match l with
  | [] => []
  | c :: rest =>
    if c == '<' then
      match h : scanTag rest with
      | some rem => ' ' :: stripTagsList rem
      | none => c :: stripTagsList rest
    else c :: stripTagsList rest
termination_by l.length
decreasing_by
  · simp only [List.length_cons]
    exact Nat.lt_trans (scanTag_length rest rem h) (Nat.lt_succ_self _)
  · simp
  · simp

/-- `re.sub("<[^<]+?>", " ", s)` on strings. -/
def stripHtmlTags (s : String) : String := String.mk (stripTagsList s.toList)

/-- One iteration of the part loop in `get_email_body`: append a text part's decoded
payload (HTML parts tag-stripped) plus a newline; skip a part whose decode raised and
skip non-text parts. -/
def bodyStep (body : String) (part : MimePart) : String :=
  if part.contentType = "text/plain" ∨ part.contentType = "text/html" then
    match part.decoded with
    | some d =>
      body ++ (if part.contentType = "text/html" then stripHtmlTags d else d) ++ "\n"
    | none => body
  else body

/-- `EmailParser.get_email_body` of src/backend/email_processing.py: for a multipart
message, fold `bodyStep` over the walked parts starting from `""`; for a single-part
message, its decoded payload, or `""` when the decode raises. -/
def get_email_body (m : EmailMsg) : String :=
  if m.multipart then m.parts.foldl bodyStep "" else m.singleDecoded.getD ""

/-! ## Order filter and per-message processing
(loop body of `EmailParser.parse_emails`, src/backend/email_processing.py) -/

/-- The fixed exclusion vocabulary of `parse_emails`. -/
def exclusion_words : List String := ["cancel", "refunded", "returned", "failed", "declined"]

/-- The skip test of `parse_emails`:
`any(w in (subject + " " + body).lower() for w in [...])`. -/
def should_skip (subject body : String) : Bool :=
  let text := pyLower (subject ++ " " ++ body)
  exclusion_words.any (fun w => containsSub w text)

/-- The record appended to `order_data` for an accepted message. -/
structure OrderRecord where
  date : Option String
  subject : String
  sender : Option String
  amount : ℚ

/-- Processing of one fetched message inside `parse_emails`: skip when the normalized
body is empty; skip when the exclusion vocabulary hits subject+body; otherwise extract
and create a record exactly when an amount was extracted. -/
def process_message (swiggyPatterns : List ((String → List String) × String))
    (amazonFind : String → List String) (m : EmailMsg) : Option OrderRecord :=
  let body := get_email_body m
  if body = "" then none
  else if should_skip m.subject body then none
  else
    match extract_order_info_backend swiggyPatterns amazonFind body m.fromAddr with
    | none => none
    | some amt => some { date := m.dateHdr, subject := m.subject, sender := m.fromAddr, amount := amt }

/-! ## Aggregation (src/backend/app.py) -/

/-- `normalize_company` of src/backend/app.py: canonical label when the lowercased
input contains a vendor token, else the input itself, with `"Unknown"` only for a
falsy (absent or empty) input. -/
def normalize_company (x : Option String) : String :=
  let s := pyLower (x.getD "")
  if containsSub "instamart" s then "Instamart"
  else if containsSub "swiggy" s then "Swiggy"
  else if containsSub "amazon" s then "Amazon"
  else if containsSub "zomato" s then "Zomato"
  else if containsSub "domino" s || containsSub "dominos" s then "Domino's"
  else if containsSub "bookmyshow" s || containsSub "book my show" s then "BookMyShow"
  else
    match x with
    | none => "Unknown"
    | some s0 => if s0 = "" then "Unknown" else s0

/-- One parser-output dict as fed to `aggregate_results_to_response`. -/
structure RawRecord where
  date : String
  subject : String
  sender : Option String
  amount : String
  company : Option String

/-- Model of `pd.to_numeric(·, errors="coerce")` on the pipeline's decimal strings:
optional leading `'-'`, digits, optional fractional part; unparseable is NaN = `none`. -/
def toNumeric (s : String) : Option ℚ :=
  match s.toList with
  | c :: rest =>
    if c = '-' then (parseFloatChars rest).map (fun q => -q)
    else parseFloatChars (c :: rest)
  | [] => parseFloatChars []

/-- Digits of a natural number (structural, via fuel ≥ n). -/
def natDigitsAux : Nat → Nat → List Char
  | 0, _ => []
  | fuel + 1, n =>
    if n < 10 then [Char.ofNat (48 + n)]
    else natDigitsAux fuel (n / 10) ++ [Char.ofNat (48 + n % 10)]

/-- Decimal string of a natural number. -/
def natToStr (n : Nat) : String := String.mk (natDigitsAux (n + 1) n)

/-- Zero-padded two-digit field, as `%m` renders a month. -/
def pad2 (n : Nat) : String := if n < 10 then "0" ++ natToStr n else natToStr n

/-- `date.strftime("%Y-%m")` on a parsed (year, month). -/
def formatMonth (ym : Nat × Nat) : String := natToStr ym.1 ++ "-" ++ pad2 ym.2

/-- A concrete date parser for witnesses: `pd.to_datetime(·, errors="coerce")`
restricted to ISO `YYYY-MM-DD` strings (which pandas accepts); anything else is NaT. -/
def parseDateSimple (s : String) : Option (Nat × Nat) :=
  match s.toList with
  | [y1, y2, y3, y4, '-', m1, m2, '-', d1, d2] =>
    if [y1, y2, y3, y4, m1, m2, d1, d2].all Char.isDigit then
      let y := digitsVal [y1, y2, y3, y4]
      let mo := digitsVal [m1, m2]
      let d := digitsVal [d1, d2]
      if 1 ≤ mo ∧ mo ≤ 12 ∧ 1 ≤ d ∧ d ≤ 31 then some (y, mo) else none
    else none
  | _ => none

/-- One cleaned dataframe row after date/amount coercion and the amount `dropna`. -/
structure CleanRow where
  month : String
  company : Option String
  amount : ℚ

/-- The column-cleaning steps of `aggregate_results_to_response`: coerce the amount
(dropping NaN rows), format the month (`"Unknown"` for NaT dates), and take the company
column when present in the frame, else derive it from the sender. `none` in `company`
models a NaN cell of a present company column. -/
def clean_rows (parseDate : String → Option (Nat × Nat)) (hasCompany : Bool)
    (records : List RawRecord) : List CleanRow :=
  records.filterMap fun r =>
    (toNumeric r.amount).map fun a =>
      { month := match parseDate r.date with
                 | some ym => formatMonth ym
                 | none => "Unknown"
        company := if hasCompany then r.company else some (normalize_company r.sender)
        amount := a }

/-- Insertion step of a simple stable-enough sort (pandas tie order is unspecified). -/
def insertSorted {α : Type} (le : α → α → Bool) (a : α) : List α → List α
  | [] => [a]
  | b :: l => if le a b then a :: b :: l else b :: insertSorted le a l

/-- Sorting, modeling `sort_values` / the sorted keys of `groupby`. -/
def sortBy {α : Type} (le : α → α → Bool) : List α → List α
  | [] => []
  | a :: l => insertSorted le a (sortBy le l)

/-- Distinct keys in first-occurrence order. -/
def dedupFirst : List String → List String
  | [] => []
  | k :: l => k :: (dedupFirst l).filter (fun x => x != k)

/-- String order used by pandas when sorting group keys (codepoint-lexicographic). -/
def strLe (a b : String) : Bool := !(decide (b < a))

/-- `groupby(key)[amount].sum()`: one row per distinct key, keys sorted ascending
(pandas groupby sorts keys), value the sum of the key's amounts. -/
def groupSum (rows : List (String × ℚ)) : List (String × ℚ) :=
  (sortBy strLe (dedupFirst (rows.map Prod.fst))).map
    fun k => (k, ((rows.filter (fun r => r.1 == k)).map Prod.snd).sum)

/-- Nearest integer with ties to even (`Int.fdiv n.num n.den` is `⌊n⌋`). -/
def roundHalfEven (n : ℚ) : ℤ :=
  if 1 / 2 < n - (Int.fdiv n.num n.den : ℚ) then Int.fdiv n.num n.den + 1
  else if n - (Int.fdiv n.num n.den : ℚ) < 1 / 2 then Int.fdiv n.num n.den
  else if Int.fdiv n.num n.den % 2 = 0 then Int.fdiv n.num n.den
  else Int.fdiv n.num n.den + 1

/-- Model of Python `round(x, 2)` (round half to even) on exact rationals. -/
def round2 (q : ℚ) : ℚ := (roundHalfEven (q * 100) : ℚ) / 100

/-- The summary dict returned by `aggregate_results_to_response` (the `expenses` echo
list for the frontend is not modeled). -/
structure AggResponse where
  monthly_spending : List (String × ℚ)
  sender_spending : List (String × ℚ)
  total_spent : ℚ
  average_order : ℚ
  total_orders : Nat
deriving DecidableEq

/-- The empty summary returned for an empty input or an all-dropped frame. -/
def emptyResponse : AggResponse :=
  { monthly_spending := [], sender_spending := [], total_spent := 0,
    average_order := 0, total_orders := 0 }

/-- The aggregation body of `aggregate_results_to_response` on a nonempty cleaned frame:
monthly sums grouped by the month string, company sums sorted descending by amount
(rows with a NaN company cell are dropped by `groupby`, as in pandas), rounded total,
rounded mean, and the row count. -/
def aggregate_core (rows : List CleanRow) : AggResponse :=
  let monthly := groupSum (rows.map fun r => (r.month, r.amount))
  let senders := sortBy (fun a b => decide (b.2 ≤ a.2))
    (groupSum (rows.filterMap fun r => r.company.map fun c => (c, r.amount)))
  let total := (rows.map CleanRow.amount).sum
  { monthly_spending := monthly
    sender_spending := senders
    total_spent := round2 total
    average_order := round2 (total / (rows.length : ℚ))
    total_orders := rows.length }

/-- `aggregate_results_to_response` of src/backend/app.py: empty summary for an empty
input list or an all-dropped frame; the company column exists exactly when some input
dict carries a `company` key; `parseDate` abstracts `pd.to_datetime(·, errors="coerce")`. -/
def aggregate_results_to_response (parseDate : String → Option (Nat × Nat))
    (records : List RawRecord) : AggResponse :=
  if records.isEmpty then emptyResponse
  else
    let rows := clean_rows parseDate (records.any fun r => r.company.isSome) records
    if rows.isEmpty then emptyResponse else aggregate_core rows

/-! ## Budget alert decision (`update_monthly_expenses`, src/backend/app.py) -/

/-- The `should_alert` computation of `update_monthly_expenses`. Timestamps are seconds.
`lastAlert = none` models a falsy `user.get('last_alert')` (never recorded);
`some none` a recorded value `datetime.fromisoformat` rejects (the `except` branch);
`some (some t)` a recorded timestamp `t`. `(now - t).days >= 1` is floor division of the
elapsed seconds by 86400. -/
def should_alert (percentage : ℚ) (now : ℤ) (lastAlert : Option (Option ℤ)) : Bool :=
  if 80 ≤ percentage then
    match lastAlert with
    | none => true
    | some none => true
    | some (some t) => 1 ≤ Int.fdiv (now - t) 86400
  else false

/-! ## Supporting lemmas -/

theorem startsWithList_iff : ∀ n h : List Char, startsWithList n h = true ↔ ∃ t, h = n ++ t := by
  intro n
  induction n with
  | nil => intro h; simp [startsWithList]
  | cons a n ih =>
    intro h
    cases h with
    | nil =>
      simp [startsWithList]
    | cons b h' =>
      simp only [startsWithList, Bool.and_eq_true, beq_iff_eq, ih, List.cons_append,
        List.cons.injEq]
      constructor
      · rintro ⟨rfl, t, rfl⟩; exact ⟨t, rfl, rfl⟩
      · rintro ⟨t, rfl, rfl⟩; exact ⟨rfl, t, rfl⟩

theorem containsSubList_iff : ∀ n h : List Char,
    containsSubList n h = true ↔ ∃ p t, h = p ++ n ++ t := by
  intro n h
  induction h with
  | nil =>
    simp only [containsSubList, List.isEmpty_iff]
    constructor
    · rintro rfl; exact ⟨[], [], rfl⟩
    · rintro ⟨p, t, hp⟩
      rcases List.append_eq_nil.mp (List.append_eq_nil.mp hp.symm).1 with ⟨_, h2⟩
      exact h2
  | cons c h' ih =>
    simp only [containsSubList, Bool.or_eq_true, startsWithList_iff, ih]
    constructor
    · rintro (⟨t, ht⟩ | ⟨p, t, rfl⟩)
      · exact ⟨[], t, by simpa using ht⟩
      · exact ⟨c :: p, t, rfl⟩
    · rintro ⟨p, t, hp⟩
      cases p with
      | nil => exact Or.inl ⟨t, by simpa using hp⟩
      | cons x p' =>
        rw [List.cons_append, List.cons_append] at hp
        cases hp
        exact Or.inr ⟨p', t, rfl⟩

theorem containsSub_iff (needle haystack : String) :
    containsSub needle haystack = true ↔
      ∃ p t, haystack.toList = p ++ needle.toList ++ t :=
  containsSubList_iff needle.toList haystack.toList

theorem parseFloatChars_nonneg : ∀ (l : List Char) (q : ℚ),
    parseFloatChars l = some q → 0 ≤ q := by
  intro l q h
  simp only [parseFloatChars] at h
  split at h
  · split at h
    · cases h; positivity
    · cases h
  · split at h
    · cases h; positivity
    · cases h

theorem floatOfMatch_nonneg (s : String) (q : ℚ) (h : floatOfMatch s = some q) : 0 ≤ q :=
  parseFloatChars_nonneg _ q h

theorem dropWhile_head_false {α : Type} {p : α → Bool} :
    ∀ (l : List α) (c : α) (r : List α), l.dropWhile p = c :: r → p c = false := by
  intro l
  induction l with
  | nil => intro c r h; simp [List.dropWhile] at h
  | cons a l ih =>
    intro c r h
    rw [List.dropWhile_cons] at h
    split at h
    · exact ih c r h
    · cases h
      exact Bool.eq_false_iff.mpr (by assumption)

theorem parseFloatChars_chars : ∀ (l : List Char) (q : ℚ), parseFloatChars l = some q →
    ∀ c ∈ l, c.isDigit = true ∨ c = '.' := by
  intro l q h c hc
  simp only [parseFloatChars] at h
  have hsplit := List.takeWhile_append_dropWhile (p := fun c => c != '.') (l := l)
  split at h
  · next hdrop =>
    rw [hdrop, List.append_nil] at hsplit
    split at h
    · next hguard =>
      rw [Bool.and_eq_true, List.all_eq_true] at hguard
      exact Or.inl (hguard.2 c (by rw [← hsplit] at hc; exact hc))
    · cases h
  · next d fp hdrop =>
    have hd : d = '.' := by
      have := dropWhile_head_false (p := fun c => c != '.') l d fp hdrop
      simpa using this
    split at h
    · next hguard =>
      simp only [Bool.and_eq_true, List.all_eq_true] at hguard
      rw [hdrop, hd] at hsplit
      rw [← hsplit] at hc
      rcases List.mem_append.mp hc with hip | hfp
      · exact Or.inl (hguard.1.1.2 c hip)
      · rcases hfp with _ | hfp
        · exact Or.inr rfl
        · exact Or.inl (hguard.2 c (by assumption))
    · cases h

theorem toNumeric_cleanAmount (s : String) (v : ℚ) (h : floatOfMatch s = some v) :
    toNumeric (cleanAmount s) = some v := by
  unfold floatOfMatch at h
  have hchars := parseFloatChars_chars _ _ h
  have hfilter : s.toList.filter (fun c => c.isDigit || c == '.') =
      s.toList.filter (fun c => c != ',') := by
    apply List.filter_congr
    intro c hc
    by_cases hcc : c = ','
    · subst hcc; decide
    · have hmem : c ∈ s.toList.filter (fun c => c != ',') :=
        List.mem_filter.mpr ⟨hc, by simpa using hcc⟩
      rcases hchars c hmem with hdig | hdot
      · simp [hdig, hcc]
      · subst hdot; decide
  have htl : (cleanAmount s).toList = s.toList.filter (fun c => c != ',') := by
    rw [← hfilter]; rfl
  unfold toNumeric
  rw [htl]
  cases hl : s.toList.filter (fun c => c != ',') with
  | nil => rw [hl] at h; exact h
  | cons c rest =>
    have hcmem : c ∈ s.toList.filter (fun c => c != ',') := by rw [hl]; exact List.mem_cons_self _ _
    have : c ≠ '-' := by
      rcases hchars c hcmem with hdig | hdot
      · intro hEq; subst hEq; simp at hdig
      · subst hdot; decide
    show (if c = '-' then Option.map (fun q => -q) (parseFloatChars rest)
      else parseFloatChars (c :: rest)) = some v
    rw [if_neg this, ← hl]
    exact h

theorem selectLargestAux_parse : ∀ (l : List String) (best : String) (bv : ℚ)
    (b : String) (v : ℚ), floatOfMatch best = some bv →
    selectLargestAux best bv l = some (b, v) → floatOfMatch b = some v := by
  intro l
  induction l with
  | nil =>
    intro best bv b v hb h
    simp only [selectLargestAux, Option.some.injEq, Prod.mk.injEq] at h
    rcases h with ⟨rfl, rfl⟩
    exact hb
  | cons x rest ih =>
    intro best bv b v hb h
    cases hx : floatOfMatch x with
    | none =>
      simp only [selectLargestAux, hx] at h
      exact Option.noConfusion h
    | some xv =>
      simp only [selectLargestAux, hx] at h
      split at h
      · exact ih x xv b v hx h
      · exact ih best bv b v hb h

theorem selectLargestAux_spec : ∀ (l : List String) (best : String) (bv : ℚ),
    floatOfMatch best = some bv →
    (∀ x ∈ l, (floatOfMatch x).isSome) →
    ∃ b v, selectLargestAux best bv l = some (b, v) ∧ floatOfMatch b = some v ∧
      (b = best ∨ b ∈ l) ∧ bv ≤ v ∧
      ∀ x ∈ l, ∀ xv, floatOfMatch x = some xv → xv ≤ v := by
  intro l
  induction l with
  | nil =>
    intro best bv hb _
    exact ⟨best, bv, rfl, hb, Or.inl rfl, le_refl _, by simp⟩
  | cons x rest ih =>
    intro best bv hb hall
    obtain ⟨xv, hx⟩ := Option.isSome_iff_exists.mp (hall x (List.mem_cons_self _ _))
    have hallrest : ∀ y ∈ rest, (floatOfMatch y).isSome :=
      fun y hy => hall y (List.mem_cons_of_mem _ hy)
    simp only [selectLargestAux, hx]
    by_cases hlt : bv < xv
    · rw [if_pos hlt]
      obtain ⟨b, v, heq, hbv, hmem, hle, hmax⟩ := ih x xv hx hallrest
      refine ⟨b, v, heq, hbv, ?_, le_of_lt (lt_of_lt_of_le hlt hle), ?_⟩
      · rcases hmem with rfl | hmem
        · exact Or.inr (List.mem_cons_self _ _)
        · exact Or.inr (List.mem_cons_of_mem _ hmem)
      · intro y hy yv hyv
        rcases hy with _ | hy
        · rw [hx] at hyv; cases hyv; exact hle
        · exact hmax y (by assumption) yv hyv
    · rw [if_neg hlt]
      obtain ⟨b, v, heq, hbv, hmem, hle, hmax⟩ := ih best bv hb hallrest
      refine ⟨b, v, heq, hbv, ?_, hle, ?_⟩
      · rcases hmem with rfl | hmem
        · exact Or.inl rfl
        · exact Or.inr (List.mem_cons_of_mem _ hmem)
      · intro y hy yv hyv
        rcases hy with _ | hy
        · rw [hx] at hyv; cases hyv
          exact le_trans (not_lt.mp hlt) hle
        · exact hmax y (by assumption) yv hyv

theorem selectLargest_spec (ms : List String) (hne : ms ≠ [])
    (hall : ∀ x ∈ ms, (floatOfMatch x).isSome) :
    ∃ b v, selectLargest ms = some (b, v) ∧ b ∈ ms ∧ floatOfMatch b = some v ∧
      ∀ x ∈ ms, ∀ xv, floatOfMatch x = some xv → xv ≤ v := by
  cases ms with
  | nil => exact absurd rfl hne
  | cons m rest =>
    obtain ⟨mv, hm⟩ := Option.isSome_iff_exists.mp (hall m (List.mem_cons_self _ _))
    obtain ⟨b, v, heq, hbv, hmem, hle, hmax⟩ :=
      selectLargestAux_spec rest m mv hm (fun y hy => hall y (List.mem_cons_of_mem _ hy))
    refine ⟨b, v, ?_, ?_, hbv, ?_⟩
    · simp only [selectLargest, hm]; exact heq
    · rcases hmem with rfl | hmem
      · exact List.mem_cons_self _ _
      · exact List.mem_cons_of_mem _ hmem
    · intro x hx xv hxv
      rcases hx with _ | hx
      · rw [hm] at hxv; cases hxv; exact hle
      · exact hmax x (by assumption) xv hxv

theorem selectLargest_parse (ms : List String) (b : String) (v : ℚ)
    (h : selectLargest ms = some (b, v)) : floatOfMatch b = some v := by
  cases ms with
  | nil => cases h
  | cons m rest =>
    simp only [selectLargest] at h
    cases hm : floatOfMatch m with
    | none => rw [hm] at h; cases h
    | some mv => rw [hm] at h; exact selectLargestAux_parse rest m mv b v hm h

theorem mem_insertSorted {α : Type} (le : α → α → Bool) (a x : α) :
    ∀ l : List α, x ∈ insertSorted le a l ↔ x = a ∨ x ∈ l := by
  intro l
  induction l with
  | nil => simp [insertSorted]
  | cons b l ih =>
    simp only [insertSorted]
    split
    · simp [List.mem_cons]
    · simp only [List.mem_cons, ih]
      tauto

theorem mem_sortBy {α : Type} (le : α → α → Bool) (x : α) :
    ∀ l : List α, x ∈ sortBy le l ↔ x ∈ l := by
  intro l
  induction l with
  | nil => simp [sortBy]
  | cons a l ih => simp [sortBy, mem_insertSorted, ih, List.mem_cons]

theorem mem_dedupFirst (x : String) : ∀ l : List String, x ∈ dedupFirst l → x ∈ l := by
  intro l
  induction l with
  | nil => simp [dedupFirst]
  | cons k l ih =>
    intro h
    simp only [dedupFirst, List.mem_cons] at h ⊢
    rcases h with rfl | h
    · exact Or.inl rfl
    · exact Or.inr (ih (List.mem_filter.mp h).1)

theorem groupSum_mem (rows : List (String × ℚ)) (kv : String × ℚ) (h : kv ∈ groupSum rows) :
    kv.1 ∈ rows.map Prod.fst ∧
      kv.2 = ((rows.filter (fun r => r.1 == kv.1)).map Prod.snd).sum := by
  unfold groupSum at h
  rcases List.mem_map.mp h with ⟨k, hk, rfl⟩
  exact ⟨mem_dedupFirst _ _ ((mem_sortBy _ _ _).mp hk), rfl⟩

theorem groupSum_nonneg (rows : List (String × ℚ)) (hrows : ∀ r ∈ rows, 0 ≤ r.2)
    (kv : String × ℚ) (h : kv ∈ groupSum rows) : 0 ≤ kv.2 := by
  obtain ⟨-, hsum⟩ := groupSum_mem rows kv h
  rw [hsum]
  apply List.sum_nonneg
  intro x hx
  rcases List.mem_map.mp hx with ⟨r, hr, rfl⟩
  exact hrows r (List.mem_filter.mp hr).1

theorem roundHalfEven_nonneg (n : ℚ) (hn : 0 ≤ n) : 0 ≤ roundHalfEven n := by
  have hf : (0:ℤ) ≤ Int.fdiv n.num n.den :=
    Int.fdiv_nonneg (Rat.num_nonneg.mpr hn) (Int.ofNat_nonneg _)
  unfold roundHalfEven
  split
  · omega
  · split
    · omega
    · split <;> omega

theorem round2_nonneg (q : ℚ) (hq : 0 ≤ q) : 0 ≤ round2 q := by
  unfold round2
  apply div_nonneg _ (by norm_num : (0:ℚ) ≤ 100)
  exact_mod_cast roundHalfEven_nonneg (q * 100) (by positivity)

theorem bodyStep_skip (acc : String) (part : MimePart)
    (h : (part.contentType = "text/plain" ∨ part.contentType = "text/html") →
      part.decoded = none) :
    bodyStep acc part = acc := by
  unfold bodyStep
  split
  · next htext => rw [h htext]
  · rfl

theorem foldl_bodyStep_skip : ∀ parts : List MimePart,
    (∀ p ∈ parts, (p.contentType = "text/plain" ∨ p.contentType = "text/html") →
      p.decoded = none) →
    ∀ acc, List.foldl bodyStep acc parts = acc := by
  intro parts
  induction parts with
  | nil => intro _ _; rfl
  | cons p parts ih =>
    intro h acc
    rw [List.foldl_cons, bodyStep_skip acc p (h p (List.mem_cons_self _ _))]
    exact ih (fun q hq => h q (List.mem_cons_of_mem _ hq)) acc

theorem extract_order_info_none (ps : List (String → List String)) (body : String)
    (h : ∀ p ∈ ps, p body = []) : extract_order_info ps body = none := by
  induction ps with
  | nil => rfl
  | cons p rest ih =>
    simp only [extract_order_info, h p (List.mem_cons_self _ _), List.isEmpty_nil, if_true]
    exact ih (fun q hq => h q (List.mem_cons_of_mem _ hq))

theorem match_labeled_foldl_nil (body : String) :
    ∀ (pats : List ((String → List String) × String)) (acc : List (ℚ × String)),
    (∀ pl ∈ pats, pl.1 body = []) →
    pats.foldl (fun acc pl => acc ++ (pl.1 body).filterMap
      (fun amt => (floatOfMatch amt).map (fun v => (v, pl.2)))) acc = acc := by
  intro pats
  induction pats with
  | nil => intro _ _; rfl
  | cons pl pats ih =>
    intro acc h
    rw [List.foldl_cons, h pl (List.mem_cons_self _ _)]
    simpa using ih acc (fun q hq => h q (List.mem_cons_of_mem _ hq))

theorem match_labeled_foldl_nonneg (body : String) :
    ∀ (pats : List ((String → List String) × String)) (acc : List (ℚ × String)),
    (∀ pr ∈ acc, 0 ≤ pr.1) →
    ∀ pr ∈ pats.foldl (fun acc pl => acc ++ (pl.1 body).filterMap
      (fun amt => (floatOfMatch amt).map (fun v => (v, pl.2)))) acc, 0 ≤ pr.1 := by
  intro pats
  induction pats with
  | nil => intro acc hacc; exact hacc
  | cons pl pats ih =>
    intro acc hacc
    rw [List.foldl_cons]
    apply ih
    intro pr hpr
    rcases List.mem_append.mp hpr with hin | hin
    · exact hacc pr hin
    · rcases List.mem_filterMap.mp hin with ⟨amt, _, heq⟩
      rcases Option.map_eq_some'.mp heq with ⟨v, hv, rfl⟩
      exact floatOfMatch_nonneg amt v hv

theorem match_labeled_amount_nonneg (pats : List ((String → List String) × String))
    (body : String) (q : ℚ) (h : match_labeled_amount pats body = some q) : 0 ≤ q := by
  unfold match_labeled_amount at h
  rcases Option.map_eq_some'.mp h with ⟨pr, hlast, rfl⟩
  exact match_labeled_foldl_nonneg body pats [] (by simp) pr
    (List.mem_of_getLast?_eq_some hlast)

theorem extract_amazon_amount_nonneg (am : String → List String) (body : String) (q : ℚ)
    (h : extract_amazon_amount am body = some q) : 0 ≤ q := by
  simp only [extract_amazon_amount] at h
  split at h
  · exact Option.noConfusion h
  · cases h
    apply List.sum_nonneg
    intro x hx
    rcases List.mem_filterMap.mp hx with ⟨amt, _, hamt⟩
    exact floatOfMatch_nonneg amt x hamt

theorem extract_order_info_nonneg : ∀ (ps : List (String → List String)) (body s : String),
    extract_order_info ps body = some s → ∃ q, toNumeric s = some q ∧ 0 ≤ q := by
  intro ps
  induction ps with
  | nil => intro body s h; exact Option.noConfusion h
  | cons p rest ih =>
    intro body s h
    simp only [extract_order_info] at h
    split at h
    · exact ih body s h
    · rcases Option.map_eq_some'.mp h with ⟨⟨b, v⟩, hsel, rfl⟩
      have hparse := selectLargest_parse _ _ _ hsel
      exact ⟨v, toNumeric_cleanAmount b v hparse, floatOfMatch_nonneg b v hparse⟩

theorem extract_order_info_first : ∀ (ps : List (String → List String))
    (rest : List (String → List String)) (p : String → List String) (body : String),
    (∀ q ∈ ps, q body = []) → p body ≠ [] →
    extract_order_info (ps ++ p :: rest) body =
      (selectLargest (p body)).map (fun b => cleanAmount b.1) := by
  intro ps
  induction ps with
  | nil =>
    intro rest p body _ hne
    simp only [List.nil_append, extract_order_info]
    rw [if_neg (by simpa using hne)]
  | cons q ps ih =>
    intro rest p body hprev hne
    rw [List.cons_append]
    simp only [extract_order_info, hprev q (List.mem_cons_self _ _), List.isEmpty_nil, if_true]
    exact ih rest p body (fun q hq => hprev q (List.mem_cons_of_mem _ hq)) hne

/-! ## The claims -/

/-- C1: For every normalized body handled by the default selection rule, `extract`
iterates the ordered pattern cascade and, for the first pattern that yields one or more
matches, returns the numerically largest match (comparing values after removing comma
thousands-separators); in particular, for a body whose first matching pattern yields the
matches [120, 45, 300], `extract` returns 300 (see the witness). -/
theorem claim1_default_rule_selects_largest
    (ps rest : List (String → List String)) (p : String → List String) (body : String)
    (hprev : ∀ q ∈ ps, q body = []) (hne : p body ≠ [])
    (hparse : ∀ m ∈ p body, (floatOfMatch m).isSome) :
    ∃ best v, selectLargest (p body) = some (best, v) ∧
      extract_order_info (ps ++ p :: rest) body = some (cleanAmount best) ∧
      best ∈ p body ∧ floatOfMatch best = some v ∧
      ∀ m ∈ p body, ∀ mv, floatOfMatch m = some mv → mv ≤ v := by
  obtain ⟨b, v, hsel, hmem, hbv, hmax⟩ := selectLargest_spec (p body) hne hparse
  refine ⟨b, v, hsel, ?_, hmem, hbv, hmax⟩
  rw [extract_order_info_first ps rest p body hprev hne, hsel]
  rfl

/-- Witness for C1: with a single pattern matching ["120", "45", "300"], the cascade
returns "300", the numerically largest match. -/
theorem claim1_witness :
    extract_order_info [fun _ => ["120", "45", "300"]] "some body" = some "300" ∧
    ∃ best v, selectLargest ((fun (_ : String) => ["120", "45", "300"]) "some body") =
        some (best, v) ∧
      extract_order_info ([] ++ (fun (_ : String) => ["120", "45", "300"]) :: [])
        "some body" = some (cleanAmount best) ∧
      best ∈ (fun (_ : String) => ["120", "45", "300"]) "some body" ∧
      floatOfMatch best = some v ∧
      ∀ m ∈ (fun (_ : String) => ["120", "45", "300"]) "some body",
        ∀ mv, floatOfMatch m = some mv → mv ≤ v :=
  ⟨by decide,
   claim1_default_rule_selects_largest [] [] (fun _ => ["120", "45", "300"]) "some body"
     (by intro q hq; exact absurd hq (List.not_mem_nil q)) (by decide) (by decide)⟩

unseal Rat.add Rat.mul Rat.inv in
/-- C2 counterexample: the sender-dispatching `extract_order_info` of
src/backend/email_processing.py returns `None` for a sender containing no recognized
vendor token, even for a body carrying a currency-tagged amount that the generic
cascade of src/email_processing.py would extract — there is no generic fallback. -/
theorem claim2_counterexample :
    extract_order_info_backend [((fun _ => ["250.00"]), "Order Total")]
      (fun _ => ["250.00"]) "Order Total: ₹ 250.00"
      (some "orders@unknownshop.example") = none ∧
    extract_order_info [fun _ => ["250.00"]] "Order Total: ₹ 250.00" = some "250.00" :=
  ⟨by decide, by decide⟩

/-- C2 (amended): `extract(body, senderAddress)` of the backend dispatches to the
Swiggy labeled-pattern extractor when the lowercased sender contains "swiggy", to the
additive Amazon extractor when it contains "amazon" (and not "swiggy"), and otherwise
returns none without consulting any generic pattern list. -/
theorem claim2_amended (sw : List ((String → List String) × String))
    (am : String → List String) (body : String) (sender : Option String) :
    (containsSub "swiggy" (pyLower (sender.getD "")) = true →
      extract_order_info_backend sw am body sender = match_labeled_amount sw body) ∧
    (containsSub "swiggy" (pyLower (sender.getD "")) = false →
      containsSub "amazon" (pyLower (sender.getD "")) = true →
      extract_order_info_backend sw am body sender = extract_amazon_amount am body) ∧
    (containsSub "swiggy" (pyLower (sender.getD "")) = false →
      containsSub "amazon" (pyLower (sender.getD "")) = false →
      extract_order_info_backend sw am body sender = none) := by
  refine ⟨?_, ?_, ?_⟩
  · intro h1
    simp [extract_order_info_backend, h1]
  · intro h1 h2
    simp [extract_order_info_backend, h1, h2]
  · intro h1 h2
    simp [extract_order_info_backend, h1, h2]

/-- Witness for C2 (amended): a Swiggy sender dispatches to the labeled extractor. -/
theorem claim2_witness :
    extract_order_info_backend [((fun _ => ["250.00"]), "Order Total")] (fun _ => [])
      "b" (some "noreply@swiggy.in") =
      match_labeled_amount [((fun _ => ["250.00"]), "Order Total")] "b" :=
  (claim2_amended [((fun _ => ["250.00"]), "Order Total")] (fun _ => []) "b"
    (some "noreply@swiggy.in")).1 (by decide)

/-- C3: For an additive-class vendor (merged-shipment digest emails, e.g. Amazon),
`extract` returns the sum of all "Total ₹X" matches in the body rather than the
maximum; the witness checks that matches [199.00, 450.50] yield 649.50. -/
theorem claim3_additive_vendor_sums (am : String → List String) (body : String)
    (hne : am body ≠ []) :
    extract_amazon_amount am body = some ((am body).filterMap floatOfMatch).sum := by
  simp only [extract_amazon_amount]
  rw [if_neg (by simpa using hne)]

unseal Rat.add Rat.mul Rat.inv Rat.ofScientific in
/-- Witness for C3: matches [199.00, 450.50] produce 649.50. -/
theorem claim3_witness :
    extract_amazon_amount (fun _ => ["199.00", "450.50"]) "digest" = some (649.5 : ℚ) := by
  rw [claim3_additive_vendor_sums (fun _ => ["199.00", "450.50"]) "digest" (by decide)]
  decide

/-- C4: For every normalized body in which no pattern of the entire cascade matches,
`extract` returns none — not zero and not an error — in the generic cascade and in the
backend's labeled matcher alike; and a message whose extraction is none produces no
`OrderRecord`. -/
theorem claim4_no_match_yields_none :
    (∀ (ps : List (String → List String)) (body : String),
      (∀ p ∈ ps, p body = []) → extract_order_info ps body = none) ∧
    (∀ (pats : List ((String → List String) × String)) (body : String),
      (∀ pl ∈ pats, pl.1 body = []) → match_labeled_amount pats body = none) ∧
    (∀ (sw : List ((String → List String) × String)) (am : String → List String)
      (m : EmailMsg),
      extract_order_info_backend sw am (get_email_body m) m.fromAddr = none →
      process_message sw am m = none) := by
  refine ⟨fun ps body h => extract_order_info_none ps body h, ?_, ?_⟩
  · intro pats body h
    unfold match_labeled_amount
    rw [match_labeled_foldl_nil body pats [] h]
    rfl
  · intro sw am m hx
    simp only [process_message]
    split
    · rfl
    · split
      · rfl
      · rw [hx]

/-- Witness for C4: a body with no matches anywhere yields none and no record. -/
theorem claim4_witness :
    extract_order_info [fun _ => []] "no amounts here" = none ∧
    match_labeled_amount [((fun _ => []), "Order Total")] "no amounts here" = none ∧
    process_message [((fun _ => []), "Order Total")] (fun _ => [])
      { subject := "Your Swiggy order", fromAddr := some "noreply@swiggy.in",
        dateHdr := some "Mon, 6 May 2024 10:00:00", multipart := false, parts := [],
        singleDecoded := some "no amounts here" } = none :=
  ⟨claim4_no_match_yields_none.1 [fun _ => []] "no amounts here" (by decide),
   claim4_no_match_yields_none.2.1 [((fun _ => []), "Order Total")] "no amounts here"
     (by decide),
   claim4_no_match_yields_none.2.2 [((fun _ => []), "Order Total")] (fun _ => []) _
     (by decide)⟩

/-- C5: The Order Filter excludes a message if and only if the case-insensitive
concatenation of subject and body contains one of "cancel", "refunded", "returned",
"failed", "declined"; any hit excludes the message before amount extraction runs,
regardless of any amount present. -/
theorem claim5_order_filter :
    (∀ subject body : String, should_skip subject body = true ↔
      ∃ w ∈ exclusion_words, ∃ pre post,
        (pyLower (subject ++ " " ++ body)).toList = pre ++ w.toList ++ post) ∧
    (∀ (sw : List ((String → List String) × String)) (am : String → List String)
      (m : EmailMsg), should_skip m.subject (get_email_body m) = true →
      process_message sw am m = none) := by
  constructor
  · intro subject body
    simp only [should_skip, List.any_eq_true]
    constructor
    · rintro ⟨w, hw, hc⟩
      exact ⟨w, hw, (containsSub_iff w _).mp hc⟩
    · rintro ⟨w, hw, hsub⟩
      exact ⟨w, hw, (containsSub_iff w _).mpr hsub⟩
  · intro sw am m hskip
    simp [process_message, hskip]

/-- Witness for C5: the subject "Your order has been cancelled" causes exclusion even
though the body carries an extractable amount. -/
theorem claim5_witness :
    should_skip "Your order has been cancelled" "Order Total: 250" = true ∧
    process_message [((fun _ => ["250"]), "Order Total")] (fun _ => [])
      { subject := "Your order has been cancelled", fromAddr := some "noreply@swiggy.in",
        dateHdr := none, multipart := false, parts := [],
        singleDecoded := some "Order Total: 250" } = none :=
  ⟨by decide,
   claim5_order_filter.2 [((fun _ => ["250"]), "Order Total")] (fun _ => []) _ (by decide)⟩

/-- C6: The body normalizer is total: a decode failure on an individual MIME part only
skips that part (removing a failing part does not change the result), the call never
fails and never returns null — on total decode failure it returns the empty string. -/
theorem claim6_normalizer_total :
    (∀ m : EmailMsg,
      (∀ p ∈ m.parts, (p.contentType = "text/plain" ∨ p.contentType = "text/html") →
        p.decoded = none) →
      (m.multipart = false → m.singleDecoded = none) →
      get_email_body m = "") ∧
    (∀ (m : EmailMsg) (l1 l2 : List MimePart) (part : MimePart), part.decoded = none →
      get_email_body { m with parts := l1 ++ part :: l2 } =
        get_email_body { m with parts := l1 ++ l2 }) := by
  constructor
  · intro m hparts hsingle
    unfold get_email_body
    split
    · exact foldl_bodyStep_skip m.parts hparts ""
    · next hmp =>
      rw [hsingle (by simpa using hmp)]
      rfl
  · intro m l1 l2 part hnone
    by_cases hmp : m.multipart = true
    · simp only [get_email_body, hmp, if_true]
      rw [List.foldl_append, List.foldl_append, List.foldl_cons,
        bodyStep_skip _ part (fun _ => hnone)]
    · simp only [get_email_body, hmp, if_false]
      rfl

/-- Witness for C6: all-failing text parts give "", and dropping a failing part leaves
the normalized body unchanged. -/
theorem claim6_witness :
    get_email_body
      { subject := "s", fromAddr := none, dateHdr := none, multipart := true,
        parts := [{ contentType := "text/plain", decoded := none },
                  { contentType := "image/png", decoded := some "junk" }],
        singleDecoded := some "ignored" } = "" ∧
    get_email_body
      { subject := "s", fromAddr := none, dateHdr := none, multipart := true,
        parts := [{ contentType := "text/plain", decoded := some "hello" },
                  { contentType := "text/plain", decoded := none }],
        singleDecoded := none } =
      get_email_body
        { subject := "s", fromAddr := none, dateHdr := none, multipart := true,
          parts := [{ contentType := "text/plain", decoded := some "hello" }],
          singleDecoded := none } :=
  ⟨claim6_normalizer_total.1 _ (by decide) (by decide),
   claim6_normalizer_total.2
     { subject := "s", fromAddr := none, dateHdr := none, multipart := true,
       parts := [], singleDecoded := none }
     [{ contentType := "text/plain", decoded := some "hello" }] []
     { contentType := "text/plain", decoded := none } rfl⟩

theorem aggregate_cases (pd : String → Option (Nat × Nat)) (recs : List RawRecord) :
    aggregate_results_to_response pd recs = emptyResponse ∨
      aggregate_results_to_response pd recs =
        aggregate_core (clean_rows pd (recs.any fun r => r.company.isSome) recs) := by
  simp only [aggregate_results_to_response]
  split
  · exact Or.inl rfl
  · split
    · exact Or.inl rfl
    · exact Or.inr rfl

/-- C7 (amended): `aggregate` drops each record whose AMOUNT fails to parse — such a
record contributes to no monthly bucket, no vendor bucket, and not to totalSpent,
averageOrder or orderCount (provided the company-column presence is unchanged by the
drop, as in all pipeline call sites, where every record carries a company label). A
record whose DATE fails to parse but whose amount parses is kept, not dropped (see the
counterexample: it lands in the "Unknown" month bucket). -/
theorem claim7_amended (pd : String → Option (Nat × Nat)) (l1 l2 : List RawRecord)
    (r : RawRecord) (hamt : toNumeric r.amount = none)
    (hcomp : r.company.isSome = true → ((l1 ++ l2).any fun x => x.company.isSome) = true) :
    aggregate_results_to_response pd (l1 ++ r :: l2) =
      aggregate_results_to_response pd (l1 ++ l2) := by
  have hany : ((l1 ++ r :: l2).any fun x => x.company.isSome) =
      ((l1 ++ l2).any fun x => x.company.isSome) := by
    cases hr : r.company.isSome with
    | false => simp [List.any_append, List.any_cons, hr]
    | true => simp [List.any_append, List.any_cons, hr, hcomp hr]
  have hrows : ∀ hc, clean_rows pd hc (l1 ++ r :: l2) = clean_rows pd hc (l1 ++ l2) := by
    intro hc
    simp [clean_rows, List.filterMap_append, List.filterMap_cons, hamt]
  by_cases hc2 : (l1 ++ l2) = []
  · rcases List.append_eq_nil.mp hc2 with ⟨rfl, rfl⟩
    simp [aggregate_results_to_response, clean_rows, List.filterMap_cons, hamt]
  · simp only [aggregate_results_to_response, hany, hrows]
    rw [if_neg (show ¬((l1 ++ r :: l2).isEmpty = true) by simp),
      if_neg (show ¬((l1 ++ l2).isEmpty = true) by simpa using hc2)]

unseal Rat.add Rat.mul Rat.sub Rat.inv in
/-- C7 counterexample: a record whose date does NOT parse but whose amount does is not
dropped: it is counted in total_orders and total_spent, bucketed under month "Unknown"
and under its vendor — contradicting the claim that a record with unparseable date
contributes to no bucket and is not counted. -/
theorem claim7_counterexample :
    parseDateSimple "not-a-date" = none ∧
    aggregate_results_to_response parseDateSimple
      [{ date := "not-a-date", subject := "s", sender := some "auto-confirm@amazon.in",
         amount := "100", company := some "Amazon" }] =
      { monthly_spending := [("Unknown", 100)], sender_spending := [("Amazon", 100)],
        total_spent := 100, average_order := 100, total_orders := 1 } :=
  ⟨by decide, by decide⟩

unseal Rat.add Rat.mul Rat.sub Rat.inv in
/-- Witness for C7 (amended): dropping a record with unparseable amount "abc" leaves
the whole summary unchanged. -/
theorem claim7_witness :
    aggregate_results_to_response parseDateSimple
      [{ date := "2024-05-10", subject := "a", sender := some "noreply@swiggy.in",
         amount := "250", company := some "Swiggy" },
       { date := "2024-05-11", subject := "b", sender := some "noreply@swiggy.in",
         amount := "abc", company := some "Swiggy" }] =
      aggregate_results_to_response parseDateSimple
        [{ date := "2024-05-10", subject := "a", sender := some "noreply@swiggy.in",
           amount := "250", company := some "Swiggy" }] :=
  claim7_amended parseDateSimple
    [{ date := "2024-05-10", subject := "a", sender := some "noreply@swiggy.in",
       amount := "250", company := some "Swiggy" }] []
    { date := "2024-05-11", subject := "b", sender := some "noreply@swiggy.in",
      amount := "abc", company := some "Swiggy" }
    (by decide) (by decide)

/-- C8: The budget alert decision is true iff percentage ≥ 80 and either no prior alert
timestamp is recorded or at least one full day (86400 s) has elapsed since the recorded
timestamp; the witness checks percentage = 85 with a 12-hour-old alert (no alert), a
30-hour-old alert (alert), and an absent timestamp (alert). -/
theorem claim8_alert_decision (p : ℚ) (now : ℤ) (la : Option (Option ℤ))
    (hwf : la = none ∨ ∃ t, la = some (some t)) :
    should_alert p now la = true ↔
      (80 ≤ p ∧ (la = none ∨ ∃ t, la = some (some t) ∧ 86400 ≤ now - t)) := by
  rcases hwf with rfl | ⟨t, rfl⟩
  · simp [should_alert]
  · have hb : (1 ≤ Int.fdiv (now - t) 86400) ↔ 86400 ≤ now - t := by
      rw [Int.fdiv_eq_ediv _ (by norm_num : (0:ℤ) ≤ 86400),
        Int.le_ediv_iff_mul_le (by norm_num : (0:ℤ) < 86400)]
      norm_num
    simp only [should_alert]
    constructor
    · intro h
      split at h
      · next hp =>
        refine ⟨hp, Or.inr ⟨t, rfl, ?_⟩⟩
        rw [← hb]
        simpa using h
      · simp at h
    · rintro ⟨hp, hrest⟩
      rw [if_pos hp]
      rcases hrest with hnone | ⟨t', ht', hle⟩
      · exact Option.noConfusion hnone
      · have ht : t = t' := by
          injection ht' with h1
          injection h1
        subst ht
        simpa using hb.mpr hle

/-- Witness for C8: percentage 85 with last alert 12 h ago gives no alert; 30 h ago or
never-alerted gives an alert. -/
theorem claim8_witness :
    should_alert 85 43200 (some (some 0)) = false ∧
    should_alert 85 108000 (some (some 0)) = true ∧
    should_alert 85 0 none = true := by
  refine ⟨?_, ?_, ?_⟩
  · have h := claim8_alert_decision 85 43200 (some (some 0)) (Or.inr ⟨0, rfl⟩)
    rw [Bool.eq_false_iff]
    intro htrue
    rcases (h.mp htrue).2 with hnone | ⟨t, ht, hle⟩
    · exact Option.noConfusion hnone
    · have : (0:ℤ) = t := by
        injection ht with h1
        injection h1
      rw [← this] at hle
      norm_num at hle
  · exact (claim8_alert_decision 85 108000 (some (some 0)) (Or.inr ⟨0, rfl⟩)).mpr
      ⟨by norm_num, Or.inr ⟨0, rfl, by norm_num⟩⟩
  · exact (claim8_alert_decision 85 0 none (Or.inl rfl)).mpr ⟨by norm_num, Or.inl rfl⟩

unseal Rat.add Rat.mul Rat.sub Rat.inv in
/-- C9 counterexample: `normalize_company` returns an unrecognized non-empty sender
unchanged — not "Unknown" — and the vendor bucket is then keyed by that raw sender
string, contradicting the claim. -/
theorem claim9_counterexample :
    normalize_company (some "shop@randomstore.example") = "shop@randomstore.example" ∧
    "shop@randomstore.example" ≠ "Unknown" ∧
    (aggregate_results_to_response parseDateSimple
      [{ date := "2024-05-10", subject := "s", sender := some "shop@randomstore.example",
         amount := "100", company := none }]).sender_spending =
      [("shop@randomstore.example", 100)] :=
  ⟨by decide, by decide, by decide⟩

/-- C9 (amended): vendor normalization maps a sender containing a recognized vendor
token to that vendor's canonical label (tokens tested in the source's order); an
unrecognized sender is NOT mapped to "Unknown": it is returned unchanged when
non-empty, and only an absent or empty sender yields "Unknown". When no company column
is present, vendor buckets are keyed by `normalize_company` of the raw sender — hence
possibly by the raw sender string itself. -/
theorem claim9_amended :
    (∀ x : Option String,
      (containsSub "instamart" (pyLower (x.getD "")) = true →
        normalize_company x = "Instamart") ∧
      (containsSub "instamart" (pyLower (x.getD "")) = false →
        containsSub "swiggy" (pyLower (x.getD "")) = true →
        normalize_company x = "Swiggy") ∧
      (containsSub "instamart" (pyLower (x.getD "")) = false →
        containsSub "swiggy" (pyLower (x.getD "")) = false →
        containsSub "amazon" (pyLower (x.getD "")) = true →
        normalize_company x = "Amazon") ∧
      (containsSub "instamart" (pyLower (x.getD "")) = false →
        containsSub "swiggy" (pyLower (x.getD "")) = false →
        containsSub "amazon" (pyLower (x.getD "")) = false →
        containsSub "zomato" (pyLower (x.getD "")) = true →
        normalize_company x = "Zomato") ∧
      (containsSub "instamart" (pyLower (x.getD "")) = false →
        containsSub "swiggy" (pyLower (x.getD "")) = false →
        containsSub "amazon" (pyLower (x.getD "")) = false →
        containsSub "zomato" (pyLower (x.getD "")) = false →
        (containsSub "domino" (pyLower (x.getD "")) ||
          containsSub "dominos" (pyLower (x.getD ""))) = true →
        normalize_company x = "Domino's") ∧
      (containsSub "instamart" (pyLower (x.getD "")) = false →
        containsSub "swiggy" (pyLower (x.getD "")) = false →
        containsSub "amazon" (pyLower (x.getD "")) = false →
        containsSub "zomato" (pyLower (x.getD "")) = false →
        (containsSub "domino" (pyLower (x.getD "")) ||
          containsSub "dominos" (pyLower (x.getD ""))) = false →
        (containsSub "bookmyshow" (pyLower (x.getD "")) ||
          containsSub "book my show" (pyLower (x.getD ""))) = true →
        normalize_company x = "BookMyShow") ∧
      (containsSub "instamart" (pyLower (x.getD "")) = false →
        containsSub "swiggy" (pyLower (x.getD "")) = false →
        containsSub "amazon" (pyLower (x.getD "")) = false →
        containsSub "zomato" (pyLower (x.getD "")) = false →
        (containsSub "domino" (pyLower (x.getD "")) ||
          containsSub "dominos" (pyLower (x.getD ""))) = false →
        (containsSub "bookmyshow" (pyLower (x.getD "")) ||
          containsSub "book my show" (pyLower (x.getD ""))) = false →
        normalize_company x =
          (match x with
           | none => "Unknown"
           | some s0 => if s0 = "" then "Unknown" else s0))) ∧
    (∀ (pd : String → Option (Nat × Nat)) (recs : List RawRecord),
      (∀ r ∈ recs, r.company = none) →
      ∀ kv ∈ (aggregate_results_to_response pd recs).sender_spending,
        ∃ r ∈ recs, kv.1 = normalize_company r.sender) := by
  constructor
  · intro x
    refine ⟨?_, ?_, ?_, ?_, ?_, ?_, ?_⟩
    · intro h1
      simp [normalize_company, h1]
    · intro h1 h2
      simp [normalize_company, h1, h2]
    · intro h1 h2 h3
      simp [normalize_company, h1, h2, h3]
    · intro h1 h2 h3 h4
      simp [normalize_company, h1, h2, h3, h4]
    · intro h1 h2 h3 h4 h5
      simp [normalize_company, h1, h2, h3, h4, h5]
    · intro h1 h2 h3 h4 h5 h6
      simp [normalize_company, h1, h2, h3, h4, h5, h6]
    · intro h1 h2 h3 h4 h5 h6
      simp [normalize_company, h1, h2, h3, h4, h5, h6]
  · intro pd recs hnone kv hkv
    rcases aggregate_cases pd recs with heq | heq
    · rw [heq] at hkv
      simp [emptyResponse] at hkv
    · rw [heq] at hkv
      have hc : (recs.any fun r => r.company.isSome) = false := by
        rw [List.any_eq_false]
        intro r hr
        simp [hnone r hr]
      rw [hc] at hkv
      simp only [aggregate_core] at hkv
      rw [mem_sortBy] at hkv
      obtain ⟨hk1, -⟩ := groupSum_mem _ _ hkv
      rcases List.mem_map.mp hk1 with ⟨pr, hpr, hfst⟩
      rcases List.mem_filterMap.mp hpr with ⟨row, hrowm, hrowpr⟩
      unfold clean_rows at hrowm
      rcases List.mem_filterMap.mp hrowm with ⟨r, hr, hmap⟩
      rcases Option.map_eq_some'.mp hmap with ⟨a, _, rfl⟩
      rcases Option.map_eq_some'.mp hrowpr with ⟨c, hc2, rfl⟩
      refine ⟨r, hr, ?_⟩
      rw [← hfst]
      simp only [if_false] at hc2
      rcases Option.some.inj hc2 with rfl
      rfl

/-- Witness for C9 (amended): a Swiggy sender address normalizes to "Swiggy". -/
theorem claim9_witness :
    normalize_company (some "noreply@swiggy.in") = "Swiggy" :=
  ((claim9_amended.1 (some "noreply@swiggy.in")).2.1) (by decide) (by decide)

/-- C10: Whenever extraction returns a non-none amount, that amount parses to a
non-negative decimal number; consequently totalSpent, every monthly bucket total,
every vendor bucket total, and averageOrder are all non-negative (given, as extraction
guarantees, that every stored amount parses non-negative). -/
theorem claim10_nonneg :
    (∀ (ps : List (String → List String)) (body s : String),
      extract_order_info ps body = some s → ∃ q, toNumeric s = some q ∧ 0 ≤ q) ∧
    (∀ (sw : List ((String → List String) × String)) (am : String → List String)
      (body : String) (sender : Option String) (q : ℚ),
      extract_order_info_backend sw am body sender = some q → 0 ≤ q) ∧
    (∀ (pd : String → Option (Nat × Nat)) (recs : List RawRecord),
      (∀ r ∈ recs, ∀ q, toNumeric r.amount = some q → 0 ≤ q) →
      0 ≤ (aggregate_results_to_response pd recs).total_spent ∧
      0 ≤ (aggregate_results_to_response pd recs).average_order ∧
      (∀ kv ∈ (aggregate_results_to_response pd recs).monthly_spending, 0 ≤ kv.2) ∧
      (∀ kv ∈ (aggregate_results_to_response pd recs).sender_spending, 0 ≤ kv.2)) := by
  refine ⟨extract_order_info_nonneg, ?_, ?_⟩
  · intro sw am body sender q h
    simp only [extract_order_info_backend] at h
    split at h
    · exact match_labeled_amount_nonneg sw body q h
    · split at h
      · exact extract_amazon_amount_nonneg am body q h
      · exact Option.noConfusion h
  · intro pd recs hrecs
    rcases aggregate_cases pd recs with heq | heq
    · rw [heq]
      simp [emptyResponse]
    · rw [heq]
      have hrow : ∀ row ∈ clean_rows pd (recs.any fun r => r.company.isSome) recs,
          0 ≤ row.amount := by
        intro row hrowm
        unfold clean_rows at hrowm
        rcases List.mem_filterMap.mp hrowm with ⟨r, hr, hmap⟩
        rcases Option.map_eq_some'.mp hmap with ⟨a, ha, rfl⟩
        exact hrecs r hr a ha
      have htot : 0 ≤ ((clean_rows pd (recs.any fun r => r.company.isSome) recs).map
          CleanRow.amount).sum := by
        apply List.sum_nonneg
        intro x hx
        rcases List.mem_map.mp hx with ⟨row, hrowm, rfl⟩
        exact hrow row hrowm
      refine ⟨round2_nonneg _ htot, ?_, ?_, ?_⟩
      · exact round2_nonneg _ (div_nonneg htot (Nat.cast_nonneg _))
      · intro kv hkv
        apply groupSum_nonneg _ _ kv hkv
        intro rkv hrkv
        rcases List.mem_map.mp hrkv with ⟨row, hrowm, rfl⟩
        exact hrow row hrowm
      · intro kv hkv
        simp only [aggregate_core] at hkv
        rw [mem_sortBy] at hkv
        apply groupSum_nonneg _ _ kv hkv
        intro rkv hrkv
        rcases List.mem_filterMap.mp hrkv with ⟨row, hrowm, hmap⟩
        rcases Option.map_eq_some'.mp hmap with ⟨c, _, rfl⟩
        exact hrow row hrowm

/-- Witness for C10: the cascade output "300" parses non-negative, and a concrete
aggregation has non-negative total_spent. -/
theorem claim10_witness :
    (∃ q, toNumeric "300" = some q ∧ 0 ≤ q) ∧
    0 ≤ (aggregate_results_to_response parseDateSimple
      [{ date := "2024-05-10", subject := "s", sender := some "noreply@swiggy.in",
         amount := "250", company := some "Swiggy" }]).total_spent :=
  ⟨claim10_nonneg.1 [fun _ => ["120", "45", "300"]] "b" "300" (by decide),
   (claim10_nonneg.2.2 parseDateSimple
     [{ date := "2024-05-10", subject := "s", sender := some "noreply@swiggy.in",
        amount := "250", company := some "Swiggy" }]
     (by
       intro r hr q hq
       rcases List.mem_singleton.mp hr with rfl
       rw [show toNumeric "250" = some (250:ℚ) from by decide] at hq
       cases hq
       norm_num)).1⟩

end EmailExpense
